import Mathlib

/-!
Verification of the parsing-and-aggregation pipeline of the datastage-excel
repository (`utils/parser.ts` and `utils/excel.ts`).

Strings are modelled as lists of characters (`Str`), so that every operation
is a structurally recursive, kernel-computable function.  JavaScript objects
(`AscRow`) and `Map`s are modelled as insertion-ordered association lists:
inserting an existing key updates the value in place (keeping the key's
original position), inserting a fresh key appends it at the end, which is
exactly the iteration-order semantics of JS objects and `Map`s.
-/

/-- Strings as lists of characters. -/
abbrev Str := List Char

/-- View a Lean string literal as a `Str`. -/
def str (s : String) : Str := s.data

/-- JavaScript `String.prototype.toLowerCase` restricted to ASCII letters
(all alias comparisons in the source involve ASCII-only alias lists). -/
def lowerStr (s : Str) : Str := s.map Char.toLower

/-- JavaScript `String.prototype.trim`: drop whitespace from both ends. -/
def trimStr (s : Str) : Str :=
  ((s.dropWhile Char.isWhitespace).reverse.dropWhile Char.isWhitespace).reverse

/-- Split a character list at every occurrence of the separator character,
like JavaScript `String.prototype.split` with a one-character separator. -/
def splitSep (sep : Char) : Str → List Str
  | [] => [[]]
  | c :: cs =>
    let r := splitSep sep cs
    if c == sep then [] :: r
    else
      match r with
      | [] => [[c]]
      | h :: t => (c :: h) :: t

/-- Join a list of strings with a one-character separator, like
JavaScript `Array.prototype.join`. -/
def joinSep (sep : Char) : List Str → Str
  | [] => []
  | [x] => x
  | x :: xs => x ++ sep :: joinSep sep xs

/-- Last `n` characters of a string. -/
def takeRightStr (s : Str) (n : Nat) : Str := s.drop (s.length - n)

/-- All but the last `n` characters of a string. -/
def dropRightStr (s : Str) (n : Nat) : Str := s.take (s.length - n)

/-- JavaScript `String.prototype.endsWith`. -/
def endsWithStr (s suffix : Str) : Bool := takeRightStr s suffix.length == suffix

/-! ## JavaScript objects as ordered association lists -/

/-- A parsed row (`AscRow` in the source): an ordered map from column name
to string value. -/
abbrev Row := List (Str × Str)

/-- Property read `row[k]`: `none` models `undefined`. -/
def objGet : Row → Str → Option Str
  | [], _ => none
  | (k', v') :: rest, k => if k' = k then some v' else objGet rest k

/-- Property write: an existing key keeps its position and gets the new
value, a fresh key is appended at the end (JS object-literal semantics). -/
def objInsert : Row → Str → Str → Row
  | [], k, v => [(k, v)]
  | (k', v') :: rest, k, v =>
    if k' = k then (k', v) :: rest else (k', v') :: objInsert rest k v

/-- `Object.keys`, in insertion order. -/
def objKeys (r : Row) : List Str := r.map Prod.fst

/-- Spread `{...r}` on top of an existing object `acc`:
assign every binding of `r`, in order, into `acc`. -/
def spreadInto (acc : Row) (r : Row) : Row :=
  r.foldl (fun a p => objInsert a p.1 p.2) acc

/-! ## The section map (`Map<string, AscRow[]>`) -/

/-- `Map<string, AscRow[]>` as an insertion-ordered association list. -/
abbrev SectionMap := List (Str × List Row)

/-- `sectionMap.has(k)`. -/
def smHas (m : SectionMap) (k : Str) : Bool := m.any (fun p => p.1 == k)

/-- Keys of the map, in insertion (iteration) order. -/
def smKeys (m : SectionMap) : List Str := m.map Prod.fst

/-- `sectionMap.get(k)` with a default. -/
def smGetD : SectionMap → Str → List Row → List Row
  | [], _, d => d
  | (k', rs) :: rest, k, d => if k' = k then rs else smGetD rest k d

/-- The combined idiom `if (!m.has(k)) m.set(k, []); m.get(k).push(...vs)`:
append `vs` to the entry of `k`, creating the entry (at the end of the map,
preserving iteration order) when it is absent. -/
def smPushAll : SectionMap → Str → List Row → SectionMap
  | [], k, vs => [(k, vs)]
  | (k', rs) :: rest, k, vs =>
    if k' = k then (k', rs ++ vs) :: rest else (k', rs) :: smPushAll rest k vs

/-- `Map<string, string>.set` (used for the flattened file map): existing key
keeps its position and gets the new content, fresh key appended at the end. -/
def mapSet : List (Str × Str) → Str → Str → List (Str × Str)
  | [], k, v => [(k, v)]
  | (k', v') :: rest, k, v =>
    if k' = k then (k', v) :: rest else (k', v') :: mapSet rest k v

/-! ## `utils/parser.ts` -/

/-- Result type of the parser (`ParsedData` in the source). -/
structure ParsedData where
  sectionMap : SectionMap
  error : Option Str
deriving DecidableEq

/-- The key under which the composite identifier is injected. -/
def noPedimentoKey : Str := str "No_Pedimento"

/-- `validSectionCodes` of `parseAscFiles`: the 23 known section codes. -/
def validSectionCodes : List Str :=
  [str "501", str "502", str "503", str "504", str "505", str "506",
   str "507", str "508", str "509", str "510", str "511", str "512",
   str "520", str "701", str "702",
   str "551", str "552", str "553", str "554", str "555", str "556",
   str "557", str "558"]

/-- `possibleSectionColumns`: recognized section-column aliases. -/
def possibleSectionColumns : List Str :=
  [str "section", str "sectioncode", str "section_code", str "code",
   str "seccion", str "seccionaduanera", str "seccion_aduanera"]

/-- Alias list for the section part of the composite identifier. -/
def seccionFields : List Str :=
  [str "seccionAduanera", str "seccion", str "aduana", str "SECCION",
   str "ADUANA", str "SECCION_ADUANERA", str "ClaveDoc", str "SeccionAd"]

/-- Alias list for the patente part of the composite identifier. -/
def patenteFields : List Str :=
  [str "patente", str "PATENTE", str "Patente"]

/-- Alias list for the pedimento part of the composite identifier. -/
def pedimentoFields : List Str :=
  [str "pedimento", str "PEDIMENTO", str "Pedimento",
   str "numeroPedimento", str "pedimentoNumero", str "Pediment"]

/-- The loop `for (field of fields) if (row[field]) { x = row[field].trim(); break; }`:
first alias bound to a non-empty (truthy) value wins and is trimmed;
otherwise the result is the empty string. -/
def findField : List Str → Row → Str
  | [], _ => []
  | f :: fs, r =>
    match objGet r f with
    | some v => if v = [] then findField fs r else trimStr v
    | none => findField fs r

/-- `row['FechaPagoReal'] || row['fechaPagoReal'] || row['FECHA_PAGO_REAL']`
(JS `||`: first truthy value, i.e. first present and non-empty value). -/
def getFecha (r : Row) : Str :=
  let a := (objGet r (str "FechaPagoReal")).getD []
  if a ≠ [] then a
  else
    let b := (objGet r (str "fechaPagoReal")).getD []
    if b ≠ [] then b else (objGet r (str "FECHA_PAGO_REAL")).getD []

/-- `createCombinedIdentifier` of the source: hyphen-join of the non-empty
parts [year, seccion, patente, pedimento], where the year is
`fechaPagoReal.substring(2, 4)` guarded by `fechaPagoReal.length >= 4`. -/
def createCombinedIdentifier (r : Row) : Str :=
  let fecha := getFecha r
  let year := if fecha ≠ [] ∧ 4 ≤ fecha.length then (fecha.drop 2).take 2 else []
  let seccion := findField seccionFields r
  let patente := findField patenteFields r
  let pedimento := findField pedimentoFields r
  joinSep '-' (([year, seccion, patente, pedimento]).filter (fun p => !(p == [])))

/-- JavaScript `substring(a, b)` modelled with an explicit bounds check:
`none` marks an access outside `[0, s.length]`, the only conceivable error
source inside `createCombinedIdentifier`'s `try` block. -/
def substringChecked (s : Str) (a b : Nat) : Option Str :=
  if a ≤ b ∧ b ≤ s.length then some ((s.drop a).take (b - a)) else none

/-- `createCombinedIdentifier` with the year extraction routed through
`substringChecked`: a `none` result would correspond to the `catch` branch
returning the fallback identifier. -/
def createCombinedIdentifierChecked (r : Row) : Option Str :=
  let fecha := getFecha r
  let yearQ := if fecha ≠ [] ∧ 4 ≤ fecha.length then substringChecked fecha 2 4 else some []
  match yearQ with
  | none => none
  | some year =>
    let seccion := findField seccionFields r
    let patente := findField patenteFields r
    let pedimento := findField pedimentoFields r
    some (joinSep '-' (([year, seccion, patente, pedimento]).filter (fun p => !(p == []))))

/-- The regex match `filename.match(/_(\d{3})\.(asc|ASC)$/)`: an underscore,
exactly three digits, then extension `.asc` or `.ASC`, at the end of the
file name; returns the three digits. -/
def matchFilenameSection (name : Str) : Option Str :=
  if endsWithStr name (str ".asc") || endsWithStr name (str ".ASC") then
    let stem := dropRightStr name 4
    let digits := takeRightStr stem 3
    let rest := dropRightStr stem 3
    if digits.length == 3 && digits.all Char.isDigit && endsWithStr rest (str "_") then
      some digits
    else none
  else none

/-- Per-line cleanup: `line.endsWith('|') ? line.slice(0, -1) : line`. -/
def stripTrailingPipe (l : Str) : Str :=
  if endsWithStr l (str "|") then dropRightStr l 1 else l

/-- The cleanup step of `parseAscFiles`:
`content.split('\n').map(strip).join('\n')`. -/
def cleanContent (content : Str) : Str :=
  joinSep '\n' ((splitSep '\n' content).map stripTrailingPipe)

/-- One line split at `|` with every value trimmed (Papa's `delimiter: '|'`
together with the `transform`/`transformHeader` trimming). -/
def parseLineVals (l : Str) : List Str := (splitSep '|' l).map trimStr

/-- Build the row object for one data line: zip the header names with the
values in order (a ragged short row simply lacks its trailing keys;
Papa's `__parsed_extra` collection for over-long rows is not modelled, no
claim depends on it). -/
def mkRow (hs vs : List Str) : Row :=
  (hs.zip vs).foldl (fun acc p => objInsert acc p.1 p.2) []

/-- `Papa.parse(content, {delimiter: '|', header: true, skipEmptyLines: true, ...})`:
split into lines, split each line at `|` trimming every cell, drop rows
that reduce to a single empty cell (skipEmptyLines), use the first
remaining row as the header and turn each later row into a `Row`. -/
def parseCSV (content : Str) : List Row :=
  let rowsVals :=
    ((splitSep '\n' content).map parseLineVals).filter (fun vs => !(vs == [([] : Str)]))
  match rowsVals with
  | [] => []
  | hs :: rest => rest.map (fun vs => mkRow hs vs)

/-- The identifier-injection step `{ "No_Pedimento": combinedId, ...row }`. -/
def enhanceRow (r : Row) : Row :=
  spreadInto [(noPedimentoKey, createCombinedIdentifier r)] r

/-- The header search
`headers.find(h => h && possibleSectionColumns.includes(h.toLowerCase()))`
over the keys of the first row. -/
def findSectionHeader (r0 : Row) : Option Str :=
  (objKeys r0).find? (fun h => !(h == []) && possibleSectionColumns.contains (lowerStr h))

/-- Body of the per-row loop of the section-column path: skip the row when
the section value is missing or empty, otherwise append the enhanced row
under that value (no allow-list check). -/
def colStep (m : SectionMap) (hdr : Str) (row : Row) : SectionMap :=
  match objGet row hdr with
  | none => m
  | some v => if v = [] then m else smPushAll m v [enhanceRow row]

/-- Processing of one `(filename, content)` entry inside the main loop of
`parseAscFiles`: skip blank files; parse; on zero rows register an empty
section for an allow-listed filename code; otherwise route the rows through
the filename code or the resolved section column. -/
def processFile (m : SectionMap) (filename content : Str) : SectionMap :=
  if trimStr content = [] then m
  else
    let fsec := matchFilenameSection filename
    let rows := parseCSV (cleanContent content)
    match rows with
    | [] =>
      match fsec with
      | some c => if validSectionCodes.contains c then smPushAll m c [] else m
      | none => m
    | r0 :: rest =>
      match fsec with
      | none =>
        match findSectionHeader r0 with
        | some hdr => (r0 :: rest).foldl (fun acc row => colStep acc hdr row) m
        | none => m
      | some c => smPushAll m c ((r0 :: rest).map enhanceRow)

/-- The error message returned when no file produced any section. -/
def noValidDataMsg : Str := str "No valid data found in any of the files."

/-- `parseAscFiles`: fold every file into the section map, then report an
error exactly when the map stayed empty. -/
def parseAscFiles (files : List (Str × Str)) : ParsedData :=
  let m := files.foldl (fun acc f => processFile acc f.1 f.2) []
  if m.isEmpty then ⟨m, some noValidDataMsg⟩ else ⟨m, none⟩

/-- The flattening step of `parseAscFilesFromFolders`: every file of every
folder is entered into one combined map under the key
`folderName + "/" + filename`. -/
def flattenFolders (folders : List (Str × List (Str × Str))) : List (Str × Str) :=
  folders.foldl
    (fun acc p => p.2.foldl (fun acc2 q => mapSet acc2 (p.1 ++ '/' :: q.1) q.2) acc)
    []

/-- `parseAscFilesFromFolders`: flatten the two-level folder map and run
`parseAscFiles` on the result. -/
def parseAscFilesFromFolders (folders : List (Str × List (Str × Str))) : ParsedData :=
  parseAscFiles (flattenFolders folders)

/-! ## `utils/excel.ts` -/

/-- `SECTION_ORDER`: the fixed 26-code emission order (the 23 allow-listed
codes followed by the three "other common codes" 160, 240, 430). -/
def SECTION_ORDER : List Str :=
  [str "501", str "502", str "503", str "504", str "505",
   str "506", str "507", str "508", str "509", str "510",
   str "511", str "512", str "520", str "701", str "702",
   str "551", str "552", str "553", str "554", str "555",
   str "556", str "557", str "558",
   str "160", str "240", str "430"]

/-- `SECTION_NAMES`: the fixed 26-entry code-to-label table. -/
def SECTION_NAMES : List (Str × Str) :=
  [(str "501", str "Datos generales"),
   (str "502", str "Transporte de las mercancías"),
   (str "503", str "Guías"),
   (str "504", str "Contenedores"),
   (str "505", str "Facturas"),
   (str "506", str "Fechas del pedimento"),
   (str "507", str "Casos del pedimento"),
   (str "508", str "Cuentas aduaneras de garantía"),
   (str "509", str "Tasas del pedimento"),
   (str "510", str "Contribuciones del pedimento"),
   (str "511", str "Observaciones del pedimento"),
   (str "512", str "Descargos de mercancías"),
   (str "520", str "Destinatarios de la mercancía"),
   (str "701", str "Rectificaciones"),
   (str "702", str "Diferencias de contribuciones"),
   (str "551", str "Partidas"),
   (str "552", str "Mercancías"),
   (str "553", str "Permiso de la partida"),
   (str "554", str "Casos de la partida"),
   (str "555", str "Cuentas aduaneras (partida)"),
   (str "556", str "Tasas de contribuciones (partida)"),
   (str "557", str "Contribuciones de la partida"),
   (str "558", str "Observaciones de la partida"),
   (str "160", str "Sección 160"),
   (str "240", str "Sección 240"),
   (str "430", str "Sección 430")]

/-- The characters Excel forbids in sheet names, replaced by `_`. -/
def illegalSheetChars : List Char := ['[', ']', '*', '?', '/', '\\', ':']

/-- `sanitizeSheetName`: truncate to 31 characters, then replace every
illegal character by an underscore. -/
def sanitizeSheetName (name : Str) : Str :=
  (name.take 31).map (fun c => if illegalSheetChars.contains c then '_' else c)

/-- `getFormattedSheetName`: the code, a space, and the table label
(falling back to `Section <code>` for codes outside the table). -/
def getFormattedSheetName (code : Str) : Str :=
  code ++ ' ' :: ((objGet SECTION_NAMES code).getD (str "Section " ++ code))

/-- The section-ordering computation of `generateExcel` (lines 160-176):
one pass over `SECTION_ORDER` pushing the codes present in the map, then a
pass over the map's keys pushing every code not yet pushed. -/
def orderedSections (m : SectionMap) : List Str :=
  let first := SECTION_ORDER.foldl (fun acc c => if smHas m c then acc ++ [c] else acc) []
  (smKeys m).foldl (fun acc c => if acc.contains c then acc else acc ++ [c]) first

/-- The tabular data of one worksheet: nothing for an empty section or an
empty first row, otherwise the first row's keys as the header row followed
by every record's values in that column order (`row[header] || ''`). -/
def sheetFor : List Row → List (List Str)
  | [] => []
  | r0 :: rest =>
    let headers := objKeys r0
    if headers = [] then []
    else headers :: (r0 :: rest).map (fun r => headers.map (fun h => (objGet r h).getD []))

/-- `generateExcel` up to serialization: the ordered list of
(sanitized sheet name, tabular data) pairs appended to the workbook. -/
def generateExcel (m : SectionMap) : List (Str × List (List Str)) :=
  (orderedSections m).map
    (fun c => (sanitizeSheetName (getFormattedSheetName c), sheetFor (smGetD m c [])))

/-! ## Specification-side definitions

These definitions follow the spec's words (not the control flow of the
source); the theorems below compare them with the source translations. -/

/-- Last binding of a key in a row (with duplicate keys the later binding
wins, matching JS object-literal assignment). -/
def objGetLast : Row → Str → Option Str
  | [], _ => none
  | (k', v') :: rest, k =>
    match objGetLast rest k with
    | some v => some v
    | none => if k' = k then some v' else none

/-- The year part of the composite identifier: characters at offsets 2-3 of
the date-like field, taken only when that field has at least 4 characters. -/
def yearPart (r : Row) : Str :=
  let fecha := getFecha r
  if fecha ≠ [] ∧ 4 ≤ fecha.length then (fecha.drop 2).take 2 else []

/-- Modelled from the spec: the identifier parts present in the record, in
the fixed order [year, section, patente, pedimento]. -/
def identifierParts (r : Row) : List Str :=
  ([yearPart r, findField seccionFields r,
    findField patenteFields r, findField pedimentoFields r]).filter (fun p => !(p == []))

/-- The example record of the spec's identifier-synthesis property. -/
def sampleRecord : Row :=
  [(str "FechaPagoReal", str "2025-03-05 11:58:12"), (str "seccion", str "4"),
   (str "patente", str "3456"), (str "pedimento", str "0012345")]

/-- Modelled from the spec (§4.1 contract with §4.2's identifier injection):
the `(sectionCode, record)` pairs one file contributes, in row order — every
row of a filename-resolved file under the filename code, otherwise every row
with a non-empty value in the resolved section column under that value. -/
def fileTaggedRecords (filename content : Str) : List (Str × Row) :=
  if trimStr content = [] then []
  else
    let fsec := matchFilenameSection filename
    let rows := parseCSV (cleanContent content)
    match rows with
    | [] => []
    | r0 :: rest =>
      match fsec with
      | none =>
        match findSectionHeader r0 with
        | some hdr =>
          (r0 :: rest).filterMap (fun row =>
            match objGet row hdr with
            | none => none
            | some v => if v = [] then none else some (v, enhanceRow row))
        | none => []
      | some c => (r0 :: rest).map (fun row => (c, enhanceRow row))

/-- Modelled from the spec's merge-correctness property: the records tagged
with a given code, concatenated over the files in processing order. -/
def sectionRecords : List (Str × Str) → Str → List Row
  | [], _ => []
  | f :: fs, k =>
    ((fileTaggedRecords f.1 f.2).filter (fun p => p.1 == k)).map Prod.snd
      ++ sectionRecords fs k

/-- The contribution of one row of the section-column path to one key. -/
def rowContrib (hdr : Str) (row : Row) (k : Str) : List Row :=
  match objGet row hdr with
  | none => []
  | some v => if v = [] then [] else if v = k then [enhanceRow row] else []

/-- The contributions of a list of rows of the section-column path. -/
def colRecs (hdr : Str) : List Row → Str → List Row
  | [], _ => []
  | r :: rs, k => rowContrib hdr r k ++ colRecs hdr rs k

/-- Modelled from the claim: worksheet ordering by the 23-code allow-list of
spec §3, followed by the remaining keys in map iteration order. -/
def specOrderedSections23 (m : SectionMap) : List Str :=
  validSectionCodes.filter (fun c => smHas m c)
    ++ (smKeys m).filter (fun c => !(validSectionCodes.contains c))

/-- Modelled from the claim: sheet naming from the 23-entry label table of
spec §3 with the `Section <code>` fallback for every code outside it. -/
def specSheetName23 (code : Str) : Str :=
  sanitizeSheetName (code ++ ' ' ::
    (if validSectionCodes.contains code
     then (objGet SECTION_NAMES code).getD (str "Section " ++ code)
     else str "Section " ++ code))

/-! ## Lemmas about the object and map primitives -/

theorem objGet_objInsert (a : Row) (k v k') :
    objGet (objInsert a k v) k' = if k' = k then some v else objGet a k' := by
  induction a with
  | nil =>
    by_cases h : k' = k
    · simp [objInsert, objGet, h]
    · simp [objInsert, objGet, h, Ne.symm h]
  | cons p rest ih =>
    obtain ⟨k₁, v₁⟩ := p
    by_cases h1 : k₁ = k
    · subst h1
      by_cases h2 : k' = k₁
      · simp [objInsert, objGet, h2]
      · simp [objInsert, objGet, h2, Ne.symm h2]
    · by_cases h2 : k₁ = k'
      · subst h2
        simp [objInsert, objGet, h1, Ne.symm h1]
      · simp [objInsert, objGet, h1, h2, ih]

theorem objGet_spreadInto (r : Row) (acc : Row) (k : Str) :
    objGet (spreadInto acc r) k =
      match objGetLast r k with
      | some v => some v
      | none => objGet acc k := by
  induction r generalizing acc with
  | nil => simp [spreadInto, objGetLast]
  | cons p rest ih =>
    obtain ⟨k₁, v₁⟩ := p
    show objGet (spreadInto (objInsert acc k₁ v₁) rest) k = _
    rw [ih]
    cases h : objGetLast rest k with
    | some v => simp [objGetLast, h]
    | none =>
      rw [objGet_objInsert]
      by_cases h2 : k₁ = k
      · subst h2
        simp [objGetLast, h]
      · simp [objGetLast, h, h2, Ne.symm h2]

theorem objGetLast_of_not_mem (r : Row) (k : Str) (h : k ∉ objKeys r) :
    objGetLast r k = none := by
  induction r with
  | nil => rfl
  | cons p rest ih =>
    obtain ⟨k₁, v₁⟩ := p
    simp only [objKeys, List.map_cons, List.mem_cons, not_or] at h
    simp [objGetLast, ih h.2, Ne.symm h.1]

theorem objGetLast_eq_objGet (r : Row) (k : Str) (h : (objKeys r).Nodup) :
    objGetLast r k = objGet r k := by
  induction r with
  | nil => rfl
  | cons p rest ih =>
    obtain ⟨k₁, v₁⟩ := p
    simp only [objKeys, List.map_cons, List.nodup_cons] at h
    by_cases h2 : k₁ = k
    · subst h2
      simp [objGetLast, objGet, objGetLast_of_not_mem rest k₁ h.1]
    · simp only [objGetLast, objGet, ih h.2, h2, if_false]
      cases hx : objGet rest k <;> simp

theorem objInsert_ne_nil (a : Row) (k v) : objInsert a k v ≠ [] := by
  cases a with
  | nil => simp [objInsert]
  | cons p rest =>
    obtain ⟨k₁, v₁⟩ := p
    by_cases h : k₁ = k <;> simp [objInsert, h]

theorem head_key_objInsert (a : Row) (k v) (h : a ≠ []) :
    (objInsert a k v).head?.map Prod.fst = a.head?.map Prod.fst := by
  cases a with
  | nil => exact absurd rfl h
  | cons p rest =>
    obtain ⟨k₁, v₁⟩ := p
    by_cases h2 : k₁ = k <;> simp [objInsert, h2]

theorem spreadInto_ne_nil (r : Row) (acc : Row) (h : acc ≠ []) :
    spreadInto acc r ≠ [] := by
  induction r generalizing acc with
  | nil => exact h
  | cons p rest ih =>
    exact ih (objInsert acc p.1 p.2) (objInsert_ne_nil acc p.1 p.2)

theorem head_key_spreadInto (r : Row) (acc : Row) (h : acc ≠ []) :
    (spreadInto acc r).head?.map Prod.fst = acc.head?.map Prod.fst := by
  induction r generalizing acc with
  | nil => rfl
  | cons p rest ih =>
    show (spreadInto (objInsert acc p.1 p.2) rest).head?.map Prod.fst = _
    rw [ih (objInsert acc p.1 p.2) (objInsert_ne_nil acc p.1 p.2)]
    exact head_key_objInsert acc p.1 p.2 h

theorem smGetD_smPushAll (m : SectionMap) (k : Str) (vs : List Row) (k') :
    smGetD (smPushAll m k vs) k' [] =
      smGetD m k' [] ++ (if k' = k then vs else []) := by
  induction m with
  | nil =>
    by_cases h : k = k'
    · subst h; simp [smPushAll, smGetD]
    · simp [smPushAll, smGetD, h, Ne.symm h]
  | cons p rest ih =>
    obtain ⟨k₁, rs⟩ := p
    by_cases h1 : k₁ = k
    · subst h1
      by_cases h2 : k₁ = k'
      · subst h2; simp [smPushAll, smGetD]
      · simp [smPushAll, smGetD, h2, Ne.symm h2]
    · by_cases h2 : k₁ = k'
      · subst h2
        simp [smPushAll, smGetD, h1, Ne.symm h1]
      · simp [smPushAll, smGetD, h1, h2, ih]

theorem smHas_iff_mem_smKeys (m : SectionMap) (k : Str) :
    smHas m k = true ↔ k ∈ smKeys m := by
  induction m with
  | nil => simp [smHas, smKeys]
  | cons p rest ih =>
    obtain ⟨k₁, rs⟩ := p
    simp only [smHas, List.any_cons, Bool.or_eq_true, beq_iff_eq, smKeys,
      List.map_cons, List.mem_cons]
    exact or_congr eq_comm ih

theorem foldl_push_if (p : Str → Bool) (L : List Str) (acc : List Str) :
    L.foldl (fun acc c => if p c then acc ++ [c] else acc) acc
      = acc ++ L.filter p := by
  induction L generalizing acc with
  | nil => simp
  | cons c cs ih =>
    by_cases h : p c <;> simp [List.filter_cons, h, ih]


theorem foldl_dedup_append (ks : List Str) (init : List Str) (h : ks.Nodup) :
    ks.foldl (fun acc c => if acc.contains c then acc else acc ++ [c]) init
      = init ++ ks.filter (fun c => !init.contains c) := by
  induction ks generalizing init with
  | nil => simp
  | cons c cs ih =>
    rcases List.nodup_cons.mp h with ⟨hc, hcs⟩
    simp only [List.foldl_cons]
    by_cases h1 : init.contains c = true
    · rw [if_pos h1, ih init hcs]
      have h1m : c ∈ init := by simpa using h1
      simp [List.filter_cons, h1m]
    · rw [if_neg h1, ih (init ++ [c]) hcs]
      have h1b : init.contains c = false := by simpa using h1
      simp only [List.filter_cons, h1b, Bool.not_false, if_true]
      rw [List.append_assoc]
      simp only [List.singleton_append, List.append_cancel_left_eq, List.cons.injEq, true_and]
      apply List.filter_congr
      intro x hx
      have hxc : x ≠ c := fun he => hc (he ▸ hx)
      simp [hxc]

/-! ## Lemmas tracing the aggregation of `parseAscFiles` -/

theorem smGetD_colStep (m : SectionMap) (hdr : Str) (row : Row) (k : Str) :
    smGetD (colStep m hdr row) k [] = smGetD m k [] ++ rowContrib hdr row k := by
  unfold colStep rowContrib
  cases objGet row hdr with
  | none => simp
  | some v =>
    dsimp only
    by_cases hv : v = []
    · simp [hv]
    · rw [if_neg hv, if_neg hv, smGetD_smPushAll]
      by_cases hk : v = k
      · subst hk; simp
      · simp [hk, Ne.symm hk]

theorem smGetD_foldl_colStep (rows : List Row) (m : SectionMap) (hdr : Str) (k : Str) :
    smGetD (rows.foldl (fun acc row => colStep acc hdr row) m) k []
      = smGetD m k [] ++ colRecs hdr rows k := by
  induction rows generalizing m with
  | nil => simp [colRecs]
  | cons r rs ih =>
    simp only [List.foldl_cons, colRecs]
    rw [ih (colStep m hdr r), smGetD_colStep, List.append_assoc]

theorem colRecs_eq_filterMap (hdr : Str) (rows : List Row) (k : Str) :
    ((rows.filterMap (fun row =>
        match objGet row hdr with
        | none => none
        | some v => if v = [] then none else some (v, enhanceRow row))).filter
          (fun p => p.1 == k)).map Prod.snd
      = colRecs hdr rows k := by
  induction rows with
  | nil => simp [colRecs]
  | cons r rs ih =>
    simp only [List.filterMap_cons, colRecs, rowContrib]
    cases objGet r hdr with
    | none => simpa using ih
    | some v =>
      by_cases hv : v = []
      · simpa [hv] using ih
      · simp only [hv, if_neg hv, if_false]
        by_cases hk : v = k
        · subst hk
          simp [List.filter_cons, ih]
        · simp [List.filter_cons, hk, ih]

theorem mapPairs_filter (c : Str) (rows : List Row) (k : Str) :
    ((rows.map (fun row => (c, enhanceRow row))).filter (fun p => p.1 == k)).map Prod.snd
      = if k = c then rows.map enhanceRow else [] := by
  induction rows with
  | nil => simp
  | cons r rs ih =>
    by_cases hk : k = c
    · subst hk; simp [List.filter_cons, ih]
    · simp [List.filter_cons, Ne.symm hk, hk, ih]

theorem smGetD_processFile (m : SectionMap) (f c : Str) (k : Str) :
    smGetD (processFile m f c) k []
      = smGetD m k []
          ++ ((fileTaggedRecords f c).filter (fun p => p.1 == k)).map Prod.snd := by
  by_cases hempty : trimStr c = []
  · simp [processFile, fileTaggedRecords, hempty]
  · cases hrows : parseCSV (cleanContent c) with
    | nil =>
      cases hf : matchFilenameSection f with
      | none => simp [processFile, fileTaggedRecords, hempty, hrows, hf]
      | some sec =>
        by_cases hval : sec ∈ validSectionCodes
        · have hvalb : validSectionCodes.contains sec = true := by simpa using hval
          simp only [processFile, fileTaggedRecords, hempty, if_false, hrows, hf, hvalb,
            if_true, List.filter_nil, List.map_nil]
          rw [smGetD_smPushAll]
          by_cases hk : k = sec <;> simp [hk]
        · have hvalb : validSectionCodes.contains sec = false := by simpa using hval
          simp [processFile, fileTaggedRecords, hempty, hrows, hf, hvalb, hval]
    | cons r0 rest =>
      cases hf : matchFilenameSection f with
      | none =>
        cases hh : findSectionHeader r0 with
        | none => simp [processFile, fileTaggedRecords, hempty, hrows, hf, hh]
        | some hdr =>
          simp only [processFile, fileTaggedRecords, hempty, if_false, hrows, hf, hh]
          rw [smGetD_foldl_colStep, colRecs_eq_filterMap]
      | some sec =>
        simp only [processFile, fileTaggedRecords, hempty, if_false, hrows, hf]
        rw [smGetD_smPushAll, mapPairs_filter]

theorem smGetD_foldl_processFile (files : List (Str × Str)) (m : SectionMap) (k : Str) :
    smGetD (files.foldl (fun acc f => processFile acc f.1 f.2) m) k []
      = smGetD m k [] ++ sectionRecords files k := by
  induction files generalizing m with
  | nil => simp [sectionRecords]
  | cons f fs ih =>
    simp only [List.foldl_cons, sectionRecords]
    rw [ih (processFile m f.1 f.2), smGetD_processFile, List.append_assoc]

theorem parseAscFiles_sectionMap (files : List (Str × Str)) :
    (parseAscFiles files).sectionMap
      = files.foldl (fun acc f => processFile acc f.1 f.2) [] := by
  unfold parseAscFiles
  by_cases h : (files.foldl (fun acc f => processFile acc f.1 f.2) []).isEmpty <;> simp [h]

theorem all_legal_aux (l : Str) :
    (l.map (fun c => if illegalSheetChars.contains c then '_' else c)).all
      (fun ch => !(illegalSheetChars.contains ch)) = true := by
  induction l with
  | nil => rfl
  | cons c cs ih =>
    simp only [List.map_cons, List.all_cons, ih, Bool.and_true]
    by_cases h : illegalSheetChars.contains c = true
    · rw [if_pos h]; decide
    · rw [if_neg h]
      simp only [Bool.not_eq_true] at h
      have hm : c ∉ illegalSheetChars := by simpa using h
      simp [hm]

/-! ## The claims -/

/-- C1: for every folder map and every section code, the aggregated list
`SectionMap[code]` produced by `parseAscFilesFromFolders` is exactly the
concatenation, over the flattened input files in processing order, of the
records of each file that resolve to that code, in row order — so each such
record appears exactly once, in file-then-row order. -/
theorem C1_merge_correctness (folders : List (Str × List (Str × Str))) (k : Str) :
    smGetD (parseAscFilesFromFolders folders).sectionMap k []
      = sectionRecords (flattenFolders folders) k := by
  unfold parseAscFilesFromFolders
  rw [parseAscFiles_sectionMap, smGetD_foldl_processFile]
  rfl

/-- C3: `createCombinedIdentifier` joins with hyphens, in the fixed order
[year, section, patente, pedimento], exactly the parts found in the record
(the empty string when none are present), and on the spec's example record
it returns `25-4-3456-0012345`. -/
theorem C3_identifier_synthesis :
    createCombinedIdentifier sampleRecord = str "25-4-3456-0012345"
      ∧ ∀ r : Row, createCombinedIdentifier r = joinSep '-' (identifierParts r) :=
  ⟨by decide, fun r => rfl⟩

/-- C5: `parseAscFiles` reports an error precisely when the resulting
section map has no keys, and in every case the result carries the section
map accumulated over all input files. -/
theorem C5_error_iff_empty (files : List (Str × Str)) :
    ((parseAscFiles files).error.isSome = (parseAscFiles files).sectionMap.isEmpty)
      ∧ (parseAscFiles files).sectionMap
        = files.foldl (fun acc f => processFile acc f.1 f.2) [] := by
  constructor
  · unfold parseAscFiles
    by_cases h : (files.foldl (fun acc f => processFile acc f.1 f.2) []).isEmpty <;> simp [h]
  · exact parseAscFiles_sectionMap files

/-- C10: `createCombinedIdentifier` is total — with the year extraction
routed through a bounds-checked substring it always returns normally (the
checked variant never yields `none`, so the `catch` fallback `ID-Unknown`
is unreachable), the offset 2-3 access being taken only under the
`length >= 4` guard. -/
theorem C10_identifier_total (r : Row) :
    createCombinedIdentifierChecked r = some (createCombinedIdentifier r) := by
  simp only [createCombinedIdentifierChecked, createCombinedIdentifier, substringChecked]
  by_cases h : getFecha r ≠ [] ∧ 4 ≤ (getFecha r).length
  · have h24 : 2 ≤ 4 ∧ 4 ≤ (getFecha r).length := ⟨by norm_num, h.2⟩
    simp [h, h24]
  · simp [h]

/-- C2 counterexample: on the map with keys `999` then `430` (both outside
the 23-code allow-list of spec §3), `generateExcel`'s ordering puts `430`
first — because the source's `SECTION_ORDER` also contains 160/240/430 —
while the claimed ordering (allow-list first, then map encounter order)
puts the earlier-encountered `999` first. -/
theorem C2_counterexample :
    orderedSections [(str "999", []), (str "430", [])] = [str "430", str "999"]
      ∧ specOrderedSections23 [(str "999", []), (str "430", [])] = [str "999", str "430"]
      ∧ orderedSections [(str "999", []), (str "430", [])]
          ≠ specOrderedSections23 [(str "999", []), (str "430", [])] :=
  ⟨by decide, by decide, by decide⟩

/-- C2 (amended): `generateExcel` emits one worksheet per section code, the
codes of the source's 26-code `SECTION_ORDER` list (the §3 allow-list
followed by 160, 240, 430) first, in that fixed sequence, followed by every
other code present in the map in its natural encounter order. -/
theorem C2_amended (m : SectionMap) (h : (smKeys m).Nodup) :
    orderedSections m
        = SECTION_ORDER.filter (fun c => smHas m c)
          ++ (smKeys m).filter (fun c => !(SECTION_ORDER.contains c))
      ∧ (generateExcel m).map Prod.fst
        = (orderedSections m).map (fun c => sanitizeSheetName (getFormattedSheetName c)) := by
  constructor
  · unfold orderedSections
    rw [foldl_push_if, List.nil_append, foldl_dedup_append _ _ h]
    congr 1
    apply List.filter_congr
    intro x hx
    have hxHas : smHas m x = true := (smHas_iff_mem_smKeys m x).mpr hx
    by_cases hSO : x ∈ SECTION_ORDER
    · have hmem : x ∈ SECTION_ORDER.filter (fun c => smHas m c) := by
        simp [List.mem_filter, hSO, hxHas]
      simp [hmem, hSO]
    · have hmem : x ∉ SECTION_ORDER.filter (fun c => smHas m c) := by
        simp [List.mem_filter, hSO]
      simp [hmem, hSO]
  · simp [generateExcel, List.map_map, Function.comp]

/-- C2 witness: the amended ordering evaluated on a concrete map holding an
unknown code and the code `430`. -/
theorem C2_witness :
    orderedSections [(str "999", []), (str "430", [])]
      = SECTION_ORDER.filter (fun c => smHas [(str "999", []), (str "430", [])] c)
        ++ (smKeys [(str "999", []), (str "430", [])]).filter
            (fun c => !(SECTION_ORDER.contains c)) :=
  (C2_amended [(str "999", []), (str "430", [])] (by decide)).1

/-- C4 counterexample: the file `x_999.asc` matches the filename pattern
with section code `999` and parses to zero data rows, yet `parseAscFiles`
does not register `999` (its map stays empty), since the empty-section
registration is guarded by the 23-code allow-list. -/
theorem C4_counterexample :
    matchFilenameSection (str "x_999.asc") = some (str "999")
      ∧ trimStr (str "a|b") ≠ []
      ∧ parseCSV (cleanContent (str "a|b")) = []
      ∧ (parseAscFiles [(str "x_999.asc", str "a|b")]).sectionMap = []
      ∧ smHas (parseAscFiles [(str "x_999.asc", str "a|b")]).sectionMap (str "999") = false :=
  ⟨by decide, by decide, by decide, by decide, by decide⟩

/-- C4 (amended): for every non-blank input file whose name matches
`_<3 digits>` followed by exactly `.asc` or `.ASC` and whose parse yields
zero data rows, `parseAscFiles` registers the filename code with an empty
record list precisely when that code is on the 23-code allow-list
(`validSectionCodes`); codes outside the list are dropped. -/
theorem C4_amended (m : SectionMap) (name content c : Str)
    (h1 : trimStr content ≠ []) (h2 : matchFilenameSection name = some c)
    (h3 : parseCSV (cleanContent content) = []) :
    processFile m name content
      = if validSectionCodes.contains c then smPushAll m c [] else m := by
  simp only [processFile, h2, h3]
  rw [if_neg h1]

/-- C4 witness: the allow-listed code `501` from file `x_501.asc` with a
header-only content is registered as an empty section. -/
theorem C4_witness :
    processFile [] (str "x_501.asc") (str "a|b")
      = if validSectionCodes.contains (str "501") then smPushAll [] (str "501") [] else [] :=
  C4_amended [] (str "x_501.asc") (str "a|b") (str "501") (by decide) (by decide) (by decide)

/-- C6: in the section-column path every row with a non-empty section value
is appended under that value with no allow-list check, and on the spec's
scenario (`code|value` with rows `501|10` and `999|20`) the map contains
both `501` and the non-allow-listed `999`, each with exactly one record. -/
theorem C6_unknown_codes_accepted :
    (∀ (m : SectionMap) (hdr : Str) (row : Row) (v : Str),
        objGet row hdr = some v → v ≠ [] →
          smGetD (colStep m hdr row) v [] = smGetD m v [] ++ [enhanceRow row])
      ∧ (parseAscFiles [(str "f.txt", str "code|value\n501|10\n999|20")]).sectionMap
        = [(str "501", [[(noPedimentoKey, []), (str "code", str "501"), (str "value", str "10")]]),
           (str "999", [[(noPedimentoKey, []), (str "code", str "999"), (str "value", str "20")]])]
      ∧ validSectionCodes.contains (str "999") = false := by
  refine ⟨?_, by decide, by decide⟩
  intro m hdr row v hget hv
  rw [smGetD_colStep]
  simp [rowContrib, hget, hv]

/-- C6 witness: the first scenario row appended under its own value. -/
theorem C6_witness :
    smGetD (colStep [] (str "code") [(str "code", str "501"), (str "value", str "10")])
        (str "501") []
      = smGetD ([] : SectionMap) (str "501") []
        ++ [enhanceRow [(str "code", str "501"), (str "value", str "10")]] :=
  C6_unknown_codes_accepted.1 [] (str "code")
    [(str "code", str "501"), (str "value", str "10")] (str "501") (by decide) (by decide)

/-- C7 counterexample: for the code `160` — outside the 23-entry table of
spec §3 — the source's 26-entry `SECTION_NAMES` yields the sheet name
`160 Sección 160`, not the claimed fallback `160 Section 160`. -/
theorem C7_counterexample :
    sanitizeSheetName (getFormattedSheetName (str "160")) = str "160 Sección 160"
      ∧ specSheetName23 (str "160") = str "160 Section 160"
      ∧ sanitizeSheetName (getFormattedSheetName (str "160")) ≠ specSheetName23 (str "160")
      ∧ validSectionCodes.contains (str "160") = false :=
  ⟨by decide, by decide, by decide, by decide⟩

/-- C7 (amended): every worksheet emitted by `generateExcel` is named
`<code> <label>` using the fixed 26-entry `SECTION_NAMES` table (the 23 §3
codes plus 160, 240, 430) with the fallback label `Section <code>` for
codes outside that table, truncated to at most 31 characters and containing
none of the characters forbidden in sheet names. -/
theorem C7_amended (m : SectionMap) (code : Str) :
    (generateExcel m).map Prod.fst
        = (orderedSections m).map (fun c => sanitizeSheetName (getFormattedSheetName c))
      ∧ (sanitizeSheetName (getFormattedSheetName code)).length ≤ 31
      ∧ (sanitizeSheetName (getFormattedSheetName code)).all
          (fun ch => !(illegalSheetChars.contains ch)) = true
      ∧ getFormattedSheetName code
        = code ++ ' ' :: ((objGet SECTION_NAMES code).getD (str "Section " ++ code)) := by
  refine ⟨by simp [generateExcel, List.map_map, Function.comp], ?_, ?_, rfl⟩
  · simp only [sanitizeSheetName, List.length_map, List.length_take]
    omega
  · exact all_legal_aux ((getFormattedSheetName code).take 31)

/-- C8: a file with data rows but neither a filename section code nor a header
matching any section-column alias contributes nothing and does not fail the
run; concretely, a run pairing such a file with a well-formed one succeeds
with no error and with the good file's section present. -/
theorem C8_no_section_file_skipped :
    (∀ (m : SectionMap) (name content : Str) (r0 : Row) (rest : List Row),
        matchFilenameSection name = none →
        parseCSV (cleanContent content) = r0 :: rest →
        findSectionHeader r0 = none →
        processFile m name content = m)
      ∧ (parseAscFiles [(str "bad.txt", str "x|y\n1|2"),
            (str "f_501.asc", str "a|b\n1|2")]).error = none
      ∧ smHas (parseAscFiles [(str "bad.txt", str "x|y\n1|2"),
            (str "f_501.asc", str "a|b\n1|2")]).sectionMap (str "501") = true := by
  refine ⟨?_, by decide, by decide⟩
  intro m name content r0 rest hf hrows hh
  by_cases hempty : trimStr content = []
  · simp [processFile, hempty]
  · simp [processFile, hempty, hrows, hf, hh]

/-- C8 witness: the alias-free, pattern-free file leaves the map unchanged. -/
theorem C8_witness :
    processFile [] (str "bad.txt") (str "x|y\n1|2") = [] :=
  C8_no_section_file_skipped.1 [] (str "bad.txt") (str "x|y\n1|2")
    [(str "x", str "1"), (str "y", str "2")] [] (by decide) (by decide) (by decide)

/-- C9: the identifier-injection step preserves every field the row had —
the enhanced record agrees with the original row on every present key (in
particular an original non-empty `No_Pedimento` value survives, the freshly
synthesized identifier being overwritten by the spread) — while
`No_Pedimento` is the enhanced record's first key. -/
theorem C9_enhance_preserves_fields (r : Row) (h : (objKeys r).Nodup) :
    (enhanceRow r).head?.map Prod.fst = some noPedimentoKey
      ∧ ∀ k : Str, (objGet r k).isSome = true → objGet (enhanceRow r) k = objGet r k := by
  constructor
  · unfold enhanceRow
    rw [head_key_spreadInto r [(noPedimentoKey, createCombinedIdentifier r)] (by simp)]
    rfl
  · intro k hk
    unfold enhanceRow
    rw [objGet_spreadInto, objGetLast_eq_objGet r k h]
    cases hx : objGet r k with
    | none => simp [hx] at hk
    | some v => simp [hx]

/-- C9 witness: a row that already carries `No_Pedimento = ORIG` keeps that
value in the enhanced record. -/
theorem C9_witness :
    objGet (enhanceRow [(noPedimentoKey, str "ORIG"), (str "a", str "1")]) noPedimentoKey
      = some (str "ORIG") := by
  have h := (C9_enhance_preserves_fields [(noPedimentoKey, str "ORIG"), (str "a", str "1")]
    (by decide)).2 noPedimentoKey (by decide)
  rw [h]
  decide
